import Mathlib

/-!
Verification of the defmt logging transport of this repository.

Producer side (`defmt-logger/src/logger_a.rs`): a singleton `Encoder` guards
the defmt frame codec with a critical section, and the flush callback
`write_bytes` frames the codec output as one text line
`[DEFMT-A:` + uppercase hex + `]` + newline.

Consumer side (`emulator-run/src/main.rs`): `notmain` reads the child's
output line by line, classifies each line, extracts and hex-decodes framed
payloads, feeds them to the streaming decoder and drains decoded frames.

Strings are modelled as lists of UTF-8 bytes (`List Nat`), because the
consumer's hex extraction indexes the payload by *byte* positions
(`&hex_str[i..i+2]`), and a byte-range slice of a Rust `str` panics when an
endpoint is not a character boundary.  All definitions below are executable.
-/

deriving instance DecidableEq for Except

/-- UTF-8 bytes of the consumer's reserved marker `"[DEFMT:"` (main.rs line 77). -/
def markerBytes : List Nat := [0x5B, 0x44, 0x45, 0x46, 0x4D, 0x54, 0x3A]

/-- UTF-8 bytes of the producer's marker `"[DEFMT-A:"` (logger_a.rs line 102). -/
def markerABytes : List Nat := [0x5B, 0x44, 0x45, 0x46, 0x4D, 0x54, 0x2D, 0x41, 0x3A]

/-- UTF-8 bytes of the closing delimiter plus newline `"]\n"`. -/
def closeNl : List Nat := [0x5D, 0x0A]

/-- UTF-8 bytes of the bare closing delimiter `"]"`. -/
def closeBracket : List Nat := [0x5D]

/-- Value of an ASCII hexadecimal digit byte, as accepted by
`u8::from_str_radix(_, 16)`: `0-9`, `A-F`, `a-f`. -/
def hexDigitVal (b : Nat) : Option Nat :=
  if 0x30 ≤ b ∧ b ≤ 0x39 then some (b - 0x30)
  else if 0x41 ≤ b ∧ b ≤ 0x46 then some (b - 0x41 + 10)
  else if 0x61 ≤ b ∧ b ≤ 0x66 then some (b - 0x61 + 10)
  else none

/-- Model of `u8::from_str_radix(s, 16)` applied to a two-byte slice
`[b1, b2]`.  Rust's integer parser accepts an optional leading sign, so a
slice `"+d"` parses to the digit value and `"-0"` parses to `0` (any other
negative value underflows `u8` and is an error).  A slice holding a single
two-byte character contains no ASCII digit and fails. -/
def fromStrRadix16 (b1 b2 : Nat) : Option Nat :=
  if b1 = 0x2B then hexDigitVal b2
  else if b1 = 0x2D then
    match hexDigitVal b2 with
    | some 0 => some 0
    | _ => none
  else
    match hexDigitVal b1, hexDigitVal b2 with
    | some d1, some d2 => some (16 * d1 + d2)
    | _, _ => none

/-- Model of `str::is_char_boundary` on the UTF-8 bytes of the string:
position 0 and the end are boundaries, and an interior position is a
boundary exactly when the byte there is not a continuation byte
(`0x80..=0xBF`). -/
def isCharBoundary (s : List Nat) (i : Nat) : Bool :=
  if i = 0 then true
  else if i = s.length then true
  else
    match s.get? i with
    | some b => !(0x80 ≤ b && b < 0xC0)
    | none => false

/-- One outcome of the consumer's per-line hex loop: either the recovered
bytes, or a panic (a byte-range slice of the payload hit a non-boundary). -/
def hexLoopGo (s : List Nat) : List Nat → Nat → List Nat → Except Unit (List Nat)
  | [], _, acc => .ok acc
  | [_], _, acc => .ok acc
  | b1 :: b2 :: rest, i, acc =>
    if isCharBoundary s i && isCharBoundary s (i + 2) then
      match fromStrRadix16 b1 b2 with
      | some v => hexLoopGo s rest (i + 2) (acc ++ [v])
      | none => hexLoopGo s rest (i + 2) acc
    else .error ()

/-- Model of the consumer's hex-decoding loop (main.rs lines 81-88):
`for i in (0..hex_str.len()).step_by(2) { if i + 1 < hex_str.len() { ... } }`
with the slice `&hex_str[i..i+2]`.  The index `i` walks the byte positions
two at a time; the remaining-bytes argument of `hexLoopGo` is always
`s.drop i`.  Slicing panics (`.error ()`) when `i` or `i + 2` is not a
character boundary of the payload. -/
def hexLoopBytes (s : List Nat) : Except Unit (List Nat) :=
  hexLoopGo s s 0 []

/-- Specification-style pair decoder: consume the payload two bytes at a
time, keep the pairs that `u8::from_str_radix(_, 16)` accepts, drop the
pairs it rejects, and ignore a lone trailing byte. -/
def pairsSpec : List Nat → List Nat
  | b1 :: b2 :: rest =>
    (match fromStrRadix16 b1 b2 with
     | some v => v :: pairsSpec rest
     | none => pairsSpec rest)
  | _ => []

/-- Model of `str::strip_prefix` on UTF-8 bytes. -/
def stripPrefixB : List Nat → List Nat → Option (List Nat)
  | [], s => some s
  | _ :: _, [] => none
  | p :: ps, c :: cs => if p = c then stripPrefixB ps cs else none

/-- Model of `str::strip_suffix` on UTF-8 bytes. -/
def stripSuffixB (pat s : List Nat) : Option (List Nat) :=
  if pat.reverse.isPrefixOf s.reverse then some (s.take (s.length - pat.length))
  else none

/-- Payload extraction of the consumer (main.rs line 79), parameterised by
the marker: `line.strip_prefix(marker).and_then(|s| s.strip_suffix("]\n").or_else(|| s.strip_suffix("]")))`. -/
def stripPayloadWith (marker line : List Nat) : Option (List Nat) :=
  (stripPrefixB marker line).bind fun s =>
    match stripSuffixB closeNl s with
    | some r => some r
    | none => stripSuffixB closeBracket s

/-- Payload extraction with the consumer's own marker `"[DEFMT:"`. -/
def stripPayload (line : List Nat) : Option (List Nat) :=
  stripPayloadWith markerBytes line

/-- Effect of the consumer on one line read from the child. -/
inductive LineStep where
  /-- The recovered bytes are handed to the stream decoder
  (`decoder.received(&bytes)` followed by one drain). -/
  | feed (bytes : List Nat)
  /-- The line is written through to standard output unmodified
  (`print!("{}", line)`). -/
  | print (line : List Nat)
  /-- No action is taken for this line. -/
  | skip
  /-- The process panics (byte-range slice not on a character boundary). -/
  | panicked
deriving DecidableEq, Repr

/-- Model of the consumer's per-line processing (main.rs lines 77-99):
classify the line by `starts_with("[DEFMT:") && contains(']')`, extract the
payload, hex-decode it pairwise, and feed the decoder exactly when at least
one byte was recovered; a non-marker line is printed verbatim. -/
def processLineBytes (line : List Nat) : LineStep :=
  if markerBytes.isPrefixOf line && line.contains 0x5D then
    match stripPayload line with
    | some hexStr =>
      match hexLoopBytes hexStr with
      | .ok bytes => if bytes.isEmpty then .skip else .feed bytes
      | .error _ => .panicked
    | none => .skip
  else .print line

/-- Uppercase hexadecimal digit byte, as produced by the `{:02X}` format. -/
def hexDigitByte (d : Nat) : Nat :=
  if d < 10 then 0x30 + d else 0x41 + (d - 10)

/-- Uppercase two-digit hex rendering of a byte sequence, as produced by
`write!(console, "{:02X}", byte)` for each byte (logger_a.rs lines 103-105). -/
def hexUpper (bs : List Nat) : List Nat :=
  bs.flatMap fun x => [hexDigitByte (x / 16), hexDigitByte (x % 16)]

/-- Model of the producer's flush callback `write_bytes` (logger_a.rs lines
97-118): the emitted line is the marker `"[DEFMT-A:"`, each byte as two
uppercase hex digits, then `"]"` and the newline from `writeln!`. -/
def write_bytes (bs : List Nat) : List Nat :=
  markerABytes ++ hexUpper bs ++ closeNl

/-- State of the producer's singleton `Encoder` (logger_a.rs lines 16-26).
The `taken` flag and the critical-section restore cell come straight from
the source.  The third field of the source, the opaque `defmt::Encoder`, is
an external collaborator; modelled from the spec as the byte buffer of the
frame currently open (`encoder`), together with the transport lines emitted
so far through the flush callback (`out`). -/
structure Encoder where
  /-- The boolean lock: true between `acquire` and `release`. -/
  taken : Bool
  /-- The critical-section restore token, stored by `acquire`. -/
  cs_restore : Option Unit
  /-- Modelled from the spec: the opaque Frame Codec (`defmt::Encoder`) is
  out of scope; it is modelled as the buffer of bytes written into the
  frame currently open, flushed via `write_bytes` on `end_frame`. -/
  encoder : List Nat
  /-- Transport lines emitted so far via the flush callback `write_bytes`. -/
  out : List (List Nat)
deriving DecidableEq, Repr

/-- The statically initialised encoder (`Encoder::new`, logger_a.rs 30-36). -/
def Encoder.new : Encoder :=
  { taken := false, cs_restore := none, encoder := [], out := [] }

/-- Model of `Encoder::acquire` (logger_a.rs 39-59): enter the critical
section, panic `"defmt logger taken reentrantly"` if `taken` is already
set, otherwise set `taken`, store the restore token and start a new codec
frame.  A panic is the `.error` case. -/
def Encoder.acquire (s : Encoder) : Except String Encoder :=
  if s.taken then .error "defmt logger taken reentrantly"
  else .ok { s with taken := true, cs_restore := some (), encoder := [] }

/-- Model of `Encoder::write` (logger_a.rs 80-91): panic
`"defmt write out of context"` if `taken` is not set, otherwise append the
bytes to the open frame via the codec. -/
def Encoder.write (s : Encoder) (bytes : List Nat) : Except String Encoder :=
  if !s.taken then .error "defmt write out of context"
  else .ok { s with encoder := s.encoder ++ bytes }

/-- Model of `Encoder::release` (logger_a.rs 62-77): panic
`"defmt release out of context"` if `taken` is not set, otherwise finalise
the frame (the codec flushes it through `write_bytes`), clear `taken` and
leave the critical section using the stored restore token. -/
def Encoder.release (s : Encoder) : Except String Encoder :=
  if !s.taken then .error "defmt release out of context"
  else .ok { s with taken := false, encoder := [],
                    out := s.out ++ [write_bytes s.encoder] }

/-- One producer session: `acquire`, then one `write` per chunk, then
`release`, starting from the fresh encoder. -/
def sessionRun (chunks : List (List Nat)) : Except String Encoder :=
  (Encoder.new.acquire).bind fun s1 =>
    (chunks.foldlM (fun (s : Encoder) c => s.write c) s1).bind fun s2 =>
      s2.release

/-- Consumer-style extraction applied to one emitted transport line with a
given marker: strip the marker and the closing delimiter, then run the
consumer's pairwise hex loop. -/
def consumerExtract (marker line : List Nat) : Option (Except Unit (List Nat)) :=
  (stripPayloadWith marker line).map hexLoopBytes

/-- One result of `reader.read_line` on the child's output (main.rs 68). -/
inductive ReadEvent where
  /-- `Ok(0)`: end of stream. -/
  | eof
  /-- `Ok(n)`, `n > 0`: one line was read (its UTF-8 bytes). -/
  | line (bs : List Nat)
  /-- `Err(e)`: an I/O error occurred while reading. -/
  | err
deriving DecidableEq, Repr

/-- Observable event of one iteration of the consumer's read loop. -/
inductive LoopEvent where
  /-- Per-line processing happened with the given effect. -/
  | action (a : LineStep)
  /-- The diagnostic `eprintln!("Error reading emulator output: {}", e)`. -/
  | diag
deriving DecidableEq, Repr

/-- How the consumer's read loop ended. -/
inductive Outcome where
  /-- The loop broke because `child.try_wait()` reported an exit status;
  `code` is `status.code()` (`none` when the OS reports no code). -/
  | exited (code : Option Int)
  /-- The loop broke on a read error (`break None`). -/
  | readError
  /-- The process aborted in a panic during line processing. -/
  | panicked
  /-- The supplied event oracle was exhausted before the loop broke: the
  real loop would keep running. -/
  | pending
deriving DecidableEq, Repr

/-- Model of the consumer's read loop (main.rs 66-110).  `reads` is the
oracle of successive `read_line` results; `waits` is the oracle of
successive `try_wait` polls (`none` = child still running, `some c` = child
exited with `status.code() = c`).  Per iteration: on EOF, poll once inside
the arm and — when the child is still running — once more at the bottom of
the loop; on a line, process it, then poll once at the bottom; on a read
error, print the diagnostic and break with no code. -/
def runLoop : List ReadEvent → List (Option (Option Int)) → List LoopEvent × Outcome
  | [], _ => ([], .pending)
  | .err :: _, _ => ([.diag], .readError)
  | .eof :: rs, ws =>
    (match ws with
     | [] => ([], .pending)
     | some st :: _ => ([], .exited st)
     | none :: ws' =>
       match ws' with
       | [] => ([], .pending)
       | some st :: _ => ([], .exited st)
       | none :: ws'' => runLoop rs ws'')
  | .line l :: rs, ws =>
    (match processLineBytes l with
     | .panicked => ([.action .panicked], .panicked)
     | a =>
       match ws with
       | [] => ([.action a], .pending)
       | some st :: _ => ([.action a], .exited st)
       | none :: ws' =>
         let r := runLoop rs ws'
         (.action a :: r.1, r.2))

/-- The value `notmain` returns for a finished loop: `Ok(status.code())`
when the loop broke on child exit, `Ok(None)` after a read error
(`break None`), nothing when the loop did not break. -/
def notmainCode : Outcome → Option (Option Int)
  | .exited c => some c
  | .readError => some none
  | .panicked => none
  | .pending => none

/-- Model of `main` (main.rs 17-23): `process::exit(code)` when `notmain`
returned `Ok(Some(code))`; when it returned `Ok(None)`, `main` falls
through and returns `Ok(())`, so the process exits with status 0. -/
def mainExitStatus : Option Int → Int
  | some code => code
  | none => 0

/-- The exit status the child's recorded state calls for: the child's exit
code when the loop observed one, with success (0) as the fallback. -/
def childExitFallback : Outcome → Int
  | .exited c => c.getD 0
  | _ => 0

/-- A run of the read loop is "successful" when no read attempt errors and
no line drives the per-line processing into a panic. -/
def readsOk (rs : List ReadEvent) : Bool :=
  rs.all fun e =>
    match e with
    | .err => false
    | .eof => true
    | .line l =>
      match processLineBytes l with
      | .panicked => false
      | _ => true

/-- One result of `decoder.decode()` on the streaming decoder (an external
collaborator): a decoded frame (rendered by its display form, abstracted to
a number), or one of the two `DecodeError` cases. -/
inductive DecodeStep where
  /-- `Ok(frame)`. -/
  | frame (f : Nat)
  /-- `Err(DecodeError::UnexpectedEof)`: not enough bytes yet. -/
  | unexpectedEof
  /-- `Err(DecodeError::Malformed)`. -/
  | malformed
deriving DecidableEq, Repr

/-- The two variants of `defmt_decoder::DecodeError`. -/
inductive DecodeError where
  | unexpectedEof
  | malformed
deriving DecidableEq, Repr

/-- Model of the drain loop `decode` (main.rs 115-129) run against the
oracle of successive `decoder.decode()` results: render (`eprintln!`) each
decoded frame and continue; stop with `Ok(())` at the first
`UnexpectedEof` or `Malformed` result.  `none` when the oracle ran out
while the loop still wanted another result. -/
def decodeDrain : List DecodeStep → Option (List Nat × Except DecodeError Unit)
  | [] => none
  | .frame f :: rest => (decodeDrain rest).map fun r => (f :: r.1, r.2)
  | .unexpectedEof :: _ => some ([], .ok ())
  | .malformed :: _ => some ([], .ok ())

/-! ### Helper lemmas -/

theorem stripPrefixB_append (p r : List Nat) : stripPrefixB p (p ++ r) = some r := by
  induction p with
  | nil => rfl
  | cons a as ih => simp [stripPrefixB, ih]

theorem stripPrefixB_eq_some {p l s : List Nat} (h : stripPrefixB p l = some s) :
    l = p ++ s := by
  induction p generalizing l with
  | nil => simpa [stripPrefixB] using h
  | cons a as ih =>
    cases l with
    | nil => simp [stripPrefixB] at h
    | cons c cs =>
      by_cases hac : a = c
      · subst hac
        simpa using ih (by simpa [stripPrefixB] using h)
      · simp [stripPrefixB, hac] at h

theorem isPrefixOf_iff_exists {p l : List Nat} :
    p.isPrefixOf l = true ↔ ∃ t, l = p ++ t := by
  induction p generalizing l with
  | nil => simp [List.isPrefixOf]
  | cons a as ih =>
    cases l with
    | nil => simp [List.isPrefixOf]
    | cons c cs =>
      simp only [List.isPrefixOf, Bool.and_eq_true, beq_iff_eq, ih, List.cons_append,
        List.cons.injEq]
      constructor
      · rintro ⟨h1, t, h2⟩
        exact ⟨t, h1.symm, h2⟩
      · rintro ⟨t, h1, h2⟩
        exact ⟨h1.symm, t, h2⟩

theorem stripSuffixB_append (pat x : List Nat) : stripSuffixB pat (x ++ pat) = some x := by
  have hpre : pat.reverse.isPrefixOf (x ++ pat).reverse = true := by
    rw [isPrefixOf_iff_exists]
    exact ⟨x.reverse, by simp⟩
  simp only [stripSuffixB, hpre, if_true, List.length_append]
  congr 1
  have : x.length + pat.length - pat.length = x.length := by omega
  rw [this, List.take_left]

theorem stripSuffixB_eq_some {pat s r : List Nat} (h : stripSuffixB pat s = some r) :
    s = r ++ pat := by
  by_cases hpre : pat.reverse.isPrefixOf s.reverse = true
  · obtain ⟨t, ht⟩ := isPrefixOf_iff_exists.mp hpre
    have hs : s = t.reverse ++ pat := by
      have := congrArg List.reverse ht
      simpa using this
    subst hs
    rw [stripSuffixB_append] at h
    obtain rfl := Option.some.inj h
    rfl
  · simp only [stripSuffixB, hpre] at h
    simp at h

theorem stripSuffixB_eq_none {pat s : List Nat} (h : ∀ x, s ≠ x ++ pat) :
    stripSuffixB pat s = none := by
  cases hss : stripSuffixB pat s with
  | none => rfl
  | some r => exact absurd (stripSuffixB_eq_some hss) (h r)

theorem isCharBoundary_of_lt {s : List Nat} {i : Nat} {b : Nat}
    (hget : s[i]? = some b) (hb : b < 0x80) : isCharBoundary s i = true := by
  by_cases h0 : i = 0
  · simp [isCharBoundary, h0]
  · have hlen : i ≠ s.length := by
      intro heq
      rw [heq] at hget
      simp [List.getElem?_len_le] at hget
    simp only [isCharBoundary, h0, if_false, hlen, List.get?_eq_getElem?, hget]
    simp only [Bool.not_eq_true', Bool.and_eq_false_iff, decide_eq_false_iff_not]
    omega

theorem isCharBoundary_length (s : List Nat) : isCharBoundary s s.length = true := by
  by_cases h0 : s.length = 0
  · simp [isCharBoundary, h0]
  · simp [isCharBoundary, h0]

theorem hexLoopGo_ascii (s : List Nat) :
    ∀ (rem : List Nat) (i : Nat) (acc : List Nat),
      s.drop i = rem → (∀ b ∈ rem, b < 0x80) →
      hexLoopGo s rem i acc = .ok (acc ++ pairsSpec rem)
  | [], _, acc, _, _ => by simp [hexLoopGo, pairsSpec]
  | [b], _, acc, _, _ => by simp [hexLoopGo, pairsSpec]
  | b1 :: b2 :: rest, i, acc, hdrop, hascii => by
    have hb1 : b1 < 0x80 := hascii b1 (by simp)
    have hb2 : b2 < 0x80 := hascii b2 (by simp)
    have hget1 : s[i]? = some b1 := by
      have := List.getElem?_drop s i 0
      rw [hdrop] at this
      simpa using this.symm
    have hget2 : s[i + 1]? = some b2 := by
      have := List.getElem?_drop s i 1
      rw [hdrop] at this
      simpa using this.symm
    have hdrop2 : s.drop (i + 2) = rest := by
      have := List.drop_drop 2 i s
      rw [hdrop] at this
      simpa [Nat.add_comm] using this.symm
    have hbi : isCharBoundary s i = true := isCharBoundary_of_lt hget1 hb1
    have hbi2 : isCharBoundary s (i + 2) = true := by
      cases hrest : rest with
      | nil =>
        have hlen : s.length = i + 2 := by
          have h1 : s.length - (i + 2) = 0 := by
            have := List.length_drop (i + 2) s
            rw [hdrop2, hrest] at this
            simpa using this.symm
          have h2 : i < s.length := by
            have := List.getElem?_eq_some.mp hget1
            exact this.1
          have h3 : i + 1 < s.length := by
            have := List.getElem?_eq_some.mp hget2
            exact this.1
          omega
        rw [← hlen]
        exact isCharBoundary_length s
      | cons c cs =>
        have hc : c < 0x80 := hascii c (by simp [hrest])
        have hgetc : s[i + 2]? = some c := by
          have := List.getElem?_drop s (i + 2) 0
          rw [hdrop2, hrest] at this
          simpa using this.symm
        exact isCharBoundary_of_lt hgetc hc
    have hrest_ascii : ∀ b ∈ rest, b < 0x80 := fun b hb => hascii b (by simp [hb])
    cases hfs : fromStrRadix16 b1 b2 with
    | some v =>
      simp only [hexLoopGo, hbi, hbi2, Bool.and_self, if_true, hfs]
      rw [hexLoopGo_ascii s rest (i + 2) (acc ++ [v]) hdrop2 hrest_ascii]
      simp [pairsSpec, hfs]
    | none =>
      simp only [hexLoopGo, hbi, hbi2, Bool.and_self, if_true, hfs]
      rw [hexLoopGo_ascii s rest (i + 2) acc hdrop2 hrest_ascii]
      simp [pairsSpec, hfs]

theorem hexLoopBytes_ascii {s : List Nat} (h : ∀ b ∈ s, b < 0x80) :
    hexLoopBytes s = .ok (pairsSpec s) := by
  simpa using hexLoopGo_ascii s s 0 [] (by simp) h

theorem hexDigitVal_hexDigitByte {d : Nat} (hd : d < 16) :
    hexDigitVal (hexDigitByte d) = some d := by
  unfold hexDigitVal hexDigitByte
  by_cases h10 : d < 10
  · simp only [h10, if_true]
    have : 0x30 ≤ 0x30 + d ∧ 0x30 + d ≤ 0x39 := by omega
    simp [this]
  · simp only [h10, if_false]
    have hn : ¬(0x30 ≤ 0x41 + (d - 10) ∧ 0x41 + (d - 10) ≤ 0x39) := by omega
    have hy : 0x41 ≤ 0x41 + (d - 10) ∧ 0x41 + (d - 10) ≤ 0x46 := by omega
    simp [hn, hy]
    omega

theorem hexDigitByte_lt {d : Nat} (hd : d < 16) : hexDigitByte d < 0x80 := by
  unfold hexDigitByte
  by_cases h10 : d < 10 <;> simp [h10] <;> omega

theorem fromStrRadix16_digits {d1 d2 : Nat} (h1 : d1 < 16) (h2 : d2 < 16) :
    fromStrRadix16 (hexDigitByte d1) (hexDigitByte d2) = some (16 * d1 + d2) := by
  have hne1 : hexDigitByte d1 ≠ 0x2B := by
    unfold hexDigitByte
    by_cases h10 : d1 < 10 <;> simp [h10] <;> omega
  have hne2 : hexDigitByte d1 ≠ 0x2D := by
    unfold hexDigitByte
    by_cases h10 : d1 < 10 <;> simp [h10] <;> omega
  simp [fromStrRadix16, hne1, hne2, hexDigitVal_hexDigitByte h1, hexDigitVal_hexDigitByte h2]

theorem hexUpper_cons (x : Nat) (rest : List Nat) :
    hexUpper (x :: rest) =
      hexDigitByte (x / 16) :: hexDigitByte (x % 16) :: hexUpper rest := by
  simp [hexUpper]

theorem hexUpper_ascii {bs : List Nat} (h : ∀ x ∈ bs, x < 256) :
    ∀ b ∈ hexUpper bs, b < 0x80 := by
  induction bs with
  | nil => simp [hexUpper]
  | cons x rest ih =>
    have hx : x < 256 := h x (by simp)
    have hdiv : x / 16 < 16 := by omega
    have hmod : x % 16 < 16 := by omega
    rw [hexUpper_cons]
    intro b hb
    simp only [List.mem_cons] at hb
    rcases hb with rfl | rfl | hb
    · exact hexDigitByte_lt hdiv
    · exact hexDigitByte_lt hmod
    · exact ih (fun y hy => h y (by simp [hy])) b hb

theorem not_ends_closeBracket {l : List Nat} (h : l.reverse.take 1 ≠ [0x5D]) :
    ∀ x, l ≠ x ++ closeBracket := by
  intro x hx
  subst hx
  simp [closeBracket] at h

theorem not_ends_closeNl {l : List Nat} (h : l.reverse.take 2 ≠ [0x0A, 0x5D]) :
    ∀ x, l ≠ x ++ closeNl := by
  intro x hx
  subst hx
  simp [closeNl] at h

theorem pairsSpec_hexUpper {bs : List Nat} (h : ∀ x ∈ bs, x < 256) :
    pairsSpec (hexUpper bs) = bs := by
  induction bs with
  | nil => simp [hexUpper, pairsSpec]
  | cons x rest ih =>
    have hx : x < 256 := h x (by simp)
    have hdiv : x / 16 < 16 := by omega
    have hmod : x % 16 < 16 := by omega
    rw [hexUpper_cons]
    simp only [pairsSpec, fromStrRadix16_digits hdiv hmod]
    rw [ih (fun y hy => h y (by simp [hy]))]
    congr 1
    omega

/-! ### Claim theorems -/

/-- Claim C2: the claim states that per-line processing never panics for any
valid UTF-8 line.  The code refutes it: on the line `"[DEFMT:aé]\n"` (UTF-8
bytes below, `é` = `C3 A9`) the pair loop takes the byte-range slice
`&hex_str[0..2]`, whose end falls inside the two-byte character `é`, and a
`str` byte-range slice off a character boundary panics. -/
theorem line_processing_panics :
    processLineBytes
        [0x5B, 0x44, 0x45, 0x46, 0x4D, 0x54, 0x3A, 0x61, 0xC3, 0xA9, 0x5D, 0x0A]
      = .panicked := by decide

/-- Claim C3: `acquire` with the lock already taken panics
`"defmt logger taken reentrantly"`; `write` and `release` without the lock
panic `"defmt write out of context"` / `"defmt release out of context"`;
in the non-panicking cases `acquire` sets `taken` and `release` clears it. -/
theorem encoder_lock_discipline :
    ∀ (cs : Option Unit) (fr : List Nat) (out : List (List Nat)) (bs : List Nat),
      Encoder.acquire { taken := true, cs_restore := cs, encoder := fr, out := out }
          = .error "defmt logger taken reentrantly"
    ∧ Encoder.write { taken := false, cs_restore := cs, encoder := fr, out := out } bs
          = .error "defmt write out of context"
    ∧ Encoder.release { taken := false, cs_restore := cs, encoder := fr, out := out }
          = .error "defmt release out of context"
    ∧ Encoder.acquire { taken := false, cs_restore := cs, encoder := fr, out := out }
          = .ok { taken := true, cs_restore := some (), encoder := [], out := out }
    ∧ Encoder.release { taken := true, cs_restore := cs, encoder := fr, out := out }
          = .ok { taken := false, cs_restore := cs, encoder := [],
                  out := out ++ [write_bytes fr] } := by
  intro cs fr out bs
  exact ⟨rfl, rfl, rfl, rfl, rfl⟩

/-- Claim C4, counterexample to the claim as stated: after an I/O error
while reading the child's output the loop breaks with `None`, `notmain`
returns `Ok(None)`, `main` falls through, and the consumer's exit status is
0 — not non-zero as the claim demands. -/
theorem read_error_exit_status_is_zero :
    (runLoop [ReadEvent.err] []).2 = .readError
  ∧ mainExitStatus ((notmainCode (runLoop [ReadEvent.err] []).2).getD none) = 0 := by
  decide

/-- Claim C4, amended: on an I/O error while reading, the consumer prints
the diagnostic, stops the read loop with no recorded exit code
(`break None`), and the resulting process exit status is 0 (success), not
non-zero. -/
theorem read_error_stops_loop (rs : List ReadEvent) (ws : List (Option (Option Int))) :
    (runLoop (.err :: rs) ws).1 = [.diag]
  ∧ (runLoop (.err :: rs) ws).2 = .readError
  ∧ notmainCode Outcome.readError = some none
  ∧ mainExitStatus ((notmainCode Outcome.readError).getD none) = 0 :=
  ⟨rfl, rfl, rfl, rfl⟩

/-- Claim C8: the drain loop renders every frame the decoder yields until
the first `UnexpectedEof` or `Malformed` result, stops there, and returns
`Ok(())` in both cases — neither condition raises an error. -/
theorem drain_stops_cleanly (fs : List Nat) (stop : DecodeStep) (rest : List DecodeStep)
    (h : stop = DecodeStep.unexpectedEof ∨ stop = DecodeStep.malformed) :
    decodeDrain (fs.map DecodeStep.frame ++ stop :: rest) = some (fs, .ok ()) := by
  induction fs with
  | nil => rcases h with rfl | rfl <;> rfl
  | cons f fs ih => simp [decodeDrain, ih]

/-- Claim C8 witness: two frames drain from one feed, then a `Malformed`
result stops the drain with success, ignoring later oracle entries. -/
theorem drain_stops_cleanly_witness :
    decodeDrain ([1, 2].map DecodeStep.frame ++ DecodeStep.malformed :: [DecodeStep.frame 9])
      = some ([1, 2], .ok ()) :=
  drain_stops_cleanly [1, 2] DecodeStep.malformed [DecodeStep.frame 9] (Or.inr rfl)

/-- Claim C1: for the producer-emitted transport line of any byte sequence,
the consumer's classifier does not recognize it as a framed payload — the
producer writes the marker `"[DEFMT-A:"` while the consumer tests
`starts_with("[DEFMT:")`, whose seventh byte `:` mismatches the producer's
`-` — so the line is written through as plain text and is never decoded,
contradicting the claimed end-to-end flow. -/
theorem producer_line_passes_through (bs : List Nat) :
    processLineBytes (write_bytes bs) = .print (write_bytes bs) := by
  have hpre : markerBytes.isPrefixOf (write_bytes bs) = false := by
    simp [write_bytes, markerBytes, markerABytes, List.isPrefixOf]
  simp [processLineBytes, hpre]

/-- Claim C7: a line that does not start with the reserved marker, or a
marker-prefixed line with no closing delimiter anywhere, is written to the
consumer's output byte-for-byte unmodified, with no decode action. -/
theorem passthrough_verbatim (line : List Nat)
    (h : (¬ ∃ t, line = markerBytes ++ t) ∨ 0x5D ∉ line) :
    processLineBytes line = .print line := by
  have hcond : (markerBytes.isPrefixOf line && line.contains 0x5D) = false := by
    rcases h with h | h
    · have hp : markerBytes.isPrefixOf line = false := by
        cases hv : markerBytes.isPrefixOf line with
        | false => rfl
        | true => exact absurd (isPrefixOf_iff_exists.mp hv) h
      rw [hp, Bool.false_and]
    · have hc : line.contains 0x5D = false := by
        cases hv : line.contains 0x5D with
        | false => rfl
        | true => exact absurd (List.elem_iff.mp hv) h
      rw [hc, Bool.and_false]
  unfold processLineBytes
  rw [hcond]
  simp

/-- Claim C7 witness: the line `"hello\n"` — no marker — is reproduced
verbatim. -/
theorem passthrough_verbatim_witness :
    processLineBytes [0x68, 0x65, 0x6C, 0x6C, 0x6F, 0x0A]
      = .print [0x68, 0x65, 0x6C, 0x6C, 0x6F, 0x0A] :=
  passthrough_verbatim [0x68, 0x65, 0x6C, 0x6C, 0x6F, 0x0A] (Or.inr (by decide))

/-- Claim C10: a line that starts with the reserved marker and contains the
closing delimiter, but neither ends with `"]"` nor with `"]\n"`, is
silently discarded: no bytes are fed and the line is not written through. -/
theorem marker_line_not_final_delimiter_discarded (line : List Nat)
    (h1 : ∃ t, line = markerBytes ++ t) (h2 : 0x5D ∈ line)
    (h3 : ∀ x, line ≠ x ++ closeBracket) (h4 : ∀ x, line ≠ x ++ closeNl) :
    processLineBytes line = .skip := by
  obtain ⟨t, rfl⟩ := h1
  have hpre : markerBytes.isPrefixOf (markerBytes ++ t) = true :=
    isPrefixOf_iff_exists.mpr ⟨t, rfl⟩
  have hcont : (markerBytes ++ t).contains 0x5D = true := List.elem_iff.mpr h2
  have ht3 : ∀ x, t ≠ x ++ closeBracket := by
    intro x hx
    exact h3 (markerBytes ++ x) (by rw [hx, List.append_assoc])
  have ht4 : ∀ x, t ≠ x ++ closeNl := by
    intro x hx
    exact h4 (markerBytes ++ x) (by rw [hx, List.append_assoc])
  have hsp : stripPayload (markerBytes ++ t) = none := by
    simp only [stripPayload, stripPayloadWith, stripPrefixB_append, Option.some_bind,
      stripSuffixB_eq_none ht4, stripSuffixB_eq_none ht3]
  unfold processLineBytes
  rw [hpre, hcont, Bool.and_self, if_pos rfl, hsp]

/-- Claim C10 witness: the line `"[DEFMT:AB]text\n"` — text after the
delimiter — is silently discarded. -/
theorem marker_line_not_final_delimiter_discarded_witness :
    processLineBytes (markerBytes ++ [0x41, 0x42, 0x5D, 0x74, 0x65, 0x78, 0x74, 0x0A])
      = .skip :=
  marker_line_not_final_delimiter_discarded
    (markerBytes ++ [0x41, 0x42, 0x5D, 0x74, 0x65, 0x78, 0x74, 0x0A])
    ⟨[0x41, 0x42, 0x5D, 0x74, 0x65, 0x78, 0x74, 0x0A], rfl⟩
    (by decide)
    (not_ends_closeBracket (by decide))
    (not_ends_closeNl (by decide))

theorem foldlM_write (chunks : List (List Nat)) :
    ∀ (cs : Option Unit) (fr : List Nat) (out : List (List Nat)),
      chunks.foldlM (fun (s : Encoder) c => s.write c)
          { taken := true, cs_restore := cs, encoder := fr, out := out }
        = .ok { taken := true, cs_restore := cs,
                encoder := fr ++ chunks.flatten, out := out } := by
  induction chunks with
  | nil =>
    intro cs fr out
    rw [List.flatten_nil, List.append_nil]
    rfl
  | cons c cks ih =>
    intro cs fr out
    have hw : Encoder.write { taken := true, cs_restore := cs, encoder := fr, out := out } c
        = .ok { taken := true, cs_restore := cs, encoder := fr ++ c, out := out } := rfl
    calc (c :: cks).foldlM (fun (s : Encoder) c => s.write c)
            { taken := true, cs_restore := cs, encoder := fr, out := out }
        = cks.foldlM (fun (s : Encoder) c => s.write c)
            { taken := true, cs_restore := cs, encoder := fr ++ c, out := out } := by
          rw [List.foldlM_cons, hw]
          rfl
      _ = .ok { taken := true, cs_restore := cs,
                encoder := (fr ++ c) ++ cks.flatten, out := out } := ih cs (fr ++ c) out
      _ = .ok { taken := true, cs_restore := cs,
                encoder := fr ++ (c :: cks).flatten, out := out } := by
          rw [List.flatten_cons, List.append_assoc]

/-- Claim C5: for the byte chunks written between one `acquire`/`release`
pair, the producer emits exactly one transport line, and the consumer-style
extraction of that line — strip the marker and the delimiter, decode the
hex pairs two characters at a time — recovers exactly the written bytes,
in order. -/
theorem session_roundtrip (chunks : List (List Nat))
    (h : ∀ c ∈ chunks, ∀ x ∈ c, x < 256) :
    sessionRun chunks
        = .ok { taken := false, cs_restore := some (), encoder := [],
                out := [write_bytes chunks.flatten] }
  ∧ consumerExtract markerABytes (write_bytes chunks.flatten)
        = some (.ok chunks.flatten) := by
  constructor
  · have hacq : Encoder.new.acquire
        = .ok { taken := true, cs_restore := some (), encoder := [], out := [] } := rfl
    unfold sessionRun
    rw [hacq]
    show ((List.foldlM (fun (s : Encoder) c => s.write c)
        { taken := true, cs_restore := some (), encoder := [], out := [] } chunks).bind
        fun s2 => s2.release) = _
    rw [foldlM_write chunks (some ()) [] []]
    rfl
  · have hflat : ∀ x ∈ chunks.flatten, x < 256 := by
      intro x hx
      obtain ⟨c, hc, hxc⟩ := List.mem_flatten.mp hx
      exact h c hc x hxc
    have h1 : stripPrefixB markerABytes (write_bytes chunks.flatten)
        = some (hexUpper chunks.flatten ++ closeNl) := by
      rw [write_bytes, List.append_assoc]
      exact stripPrefixB_append _ _
    have h2 : stripSuffixB closeNl (hexUpper chunks.flatten ++ closeNl)
        = some (hexUpper chunks.flatten) := stripSuffixB_append _ _
    have h3 : hexLoopBytes (hexUpper chunks.flatten) = .ok chunks.flatten := by
      rw [hexLoopBytes_ascii (hexUpper_ascii hflat), pairsSpec_hexUpper hflat]
    unfold consumerExtract stripPayloadWith
    rw [h1, Option.some_bind, h2]
    show some (hexLoopBytes (hexUpper chunks.flatten)) = _
    rw [h3]

/-- Claim C5 witness: the two chunks `[0x48]` and `[0x65, 0x6C]` written in
one session emit one line whose extraction recovers `48 65 6C`. -/
theorem session_roundtrip_witness :
    sessionRun [[0x48], [0x65, 0x6C]]
        = .ok { taken := false, cs_restore := some (), encoder := [],
                out := [write_bytes [0x48, 0x65, 0x6C]] }
  ∧ consumerExtract markerABytes (write_bytes [0x48, 0x65, 0x6C])
        = some (.ok [0x48, 0x65, 0x6C]) :=
  session_roundtrip [[0x48], [0x65, 0x6C]] (by decide)

/-- Claim C6, counterexample to the claim as stated: the line
`"[DEFMT:0é]\n"` begins with the marker and ends with the delimiter, and
the claim says its pair `"0é"` fails hex parsing and is silently dropped
with no feed; instead the byte-indexed slice `&hex_str[0..2]` ends inside
the two-byte character `é` and the consumer panics. -/
theorem pair_decode_claim_fails :
    processLineBytes [0x5B, 0x44, 0x45, 0x46, 0x4D, 0x54, 0x3A, 0x30, 0xC3, 0xA9, 0x5D, 0x0A]
        = .panicked
  ∧ processLineBytes [0x5B, 0x44, 0x45, 0x46, 0x4D, 0x54, 0x3A, 0x30, 0xC3, 0xA9, 0x5D, 0x0A]
        ≠ .skip := by
  decide

/-- Claim C6, amended: for every marker-prefixed line that ends with the
closing delimiter (with or without a trailing newline) and whose enclosed
substring is ASCII — so the byte-pair slices cannot hit a character
boundary panic — the consumer decodes the substring two characters at a
time, silently dropping pairs that fail hex parsing and ignoring a lone
trailing character, and performs exactly one feed if at least one byte was
recovered and no feed otherwise. -/
theorem marker_line_pair_decode (p : List Nat) (hp : ∀ b ∈ p, b < 0x80) :
    processLineBytes (markerBytes ++ p ++ closeBracket)
        = (if pairsSpec p = [] then LineStep.skip else LineStep.feed (pairsSpec p))
  ∧ processLineBytes (markerBytes ++ p ++ closeNl)
        = (if pairsSpec p = [] then LineStep.skip else LineStep.feed (pairsSpec p)) := by
  have hhex : hexLoopBytes p = .ok (pairsSpec p) := hexLoopBytes_ascii hp
  have hfinal : (if (pairsSpec p).isEmpty then LineStep.skip else LineStep.feed (pairsSpec p))
      = (if pairsSpec p = [] then LineStep.skip else LineStep.feed (pairsSpec p)) := by
    by_cases hnil : pairsSpec p = []
    · simp [hnil]
    · simp [List.isEmpty_iff, hnil]
  constructor
  · rw [List.append_assoc]
    have hpre : markerBytes.isPrefixOf (markerBytes ++ (p ++ closeBracket)) = true :=
      isPrefixOf_iff_exists.mpr ⟨_, rfl⟩
    have hcont : (markerBytes ++ (p ++ closeBracket)).contains 0x5D = true :=
      List.elem_iff.mpr (by simp [closeBracket])
    have hnl : stripSuffixB closeNl (p ++ closeBracket) = none := by
      apply stripSuffixB_eq_none
      intro x hx
      have := congrArg List.reverse hx
      simp [closeBracket, closeNl] at this
    have hsp : stripPayload (markerBytes ++ (p ++ closeBracket)) = some p := by
      simp only [stripPayload, stripPayloadWith, stripPrefixB_append, Option.some_bind, hnl]
      exact stripSuffixB_append closeBracket p
    unfold processLineBytes
    rw [hpre, hcont, Bool.and_self, if_pos rfl]
    simp only [hsp, hhex]
    exact hfinal
  · rw [List.append_assoc]
    have hpre : markerBytes.isPrefixOf (markerBytes ++ (p ++ closeNl)) = true :=
      isPrefixOf_iff_exists.mpr ⟨_, rfl⟩
    have hcont : (markerBytes ++ (p ++ closeNl)).contains 0x5D = true :=
      List.elem_iff.mpr (by simp [closeNl])
    have hsp : stripPayload (markerBytes ++ (p ++ closeNl)) = some p := by
      simp only [stripPayload, stripPayloadWith, stripPrefixB_append, Option.some_bind,
        stripSuffixB_append closeNl p]
    unfold processLineBytes
    rw [hpre, hcont, Bool.and_self, if_pos rfl]
    simp only [hsp, hhex]
    exact hfinal

/-- Claim C6 witness: the line `"[DEFMT:48]"` (and `"[DEFMT:48]\n"`)
recovers the single byte `0x48` and performs one feed. -/
theorem marker_line_pair_decode_witness :
    processLineBytes (markerBytes ++ [0x34, 0x38] ++ closeBracket)
        = (if pairsSpec [0x34, 0x38] = [] then LineStep.skip
           else LineStep.feed (pairsSpec [0x34, 0x38]))
  ∧ processLineBytes (markerBytes ++ [0x34, 0x38] ++ closeNl)
        = (if pairsSpec [0x34, 0x38] = [] then LineStep.skip
           else LineStep.feed (pairsSpec [0x34, 0x38])) :=
  marker_line_pair_decode [0x34, 0x38] (by decide)

theorem runLoop_no_error (rs : List ReadEvent) :
    readsOk rs = true → ∀ ws,
      (runLoop rs ws).2 ≠ Outcome.readError ∧ (runLoop rs ws).2 ≠ Outcome.panicked := by
  induction rs with
  | nil => intro _ ws; simp [runLoop]
  | cons e rs ih =>
    intro h ws
    rw [readsOk, List.all_cons, Bool.and_eq_true] at h
    obtain ⟨he, hrs⟩ := h
    cases e with
    | err => simp at he
    | eof =>
      match ws with
      | [] => simp [runLoop]
      | some st :: ws' => simp [runLoop]
      | none :: [] => simp [runLoop]
      | none :: some st :: ws'' => simp [runLoop]
      | none :: none :: ws'' => simpa [runLoop] using ih hrs ws''
    | line l =>
      cases hl : processLineBytes l with
      | panicked => simp [hl] at he
      | feed bs =>
        match ws with
        | [] => simp [runLoop, hl]
        | some st :: ws' => simp [runLoop, hl]
        | none :: ws' => simpa [runLoop, hl] using ih hrs ws'
      | print pl =>
        match ws with
        | [] => simp [runLoop, hl]
        | some st :: ws' => simp [runLoop, hl]
        | none :: ws' => simpa [runLoop, hl] using ih hrs ws'
      | skip =>
        match ws with
        | [] => simp [runLoop, hl]
        | some st :: ws' => simp [runLoop, hl]
        | none :: ws' => simpa [runLoop, hl] using ih hrs ws'

/-- Claim C9: on a successful run (no read error, no panicking line) the
read loop never breaks via the read-error path — it terminates only by
observing the child's exit through `try_wait` (or is still pending) — and
the consumer's own exit status equals the child's recorded exit code, with
success (0) as the fallback when the code is unavailable. -/
theorem successful_run_exit (rs : List ReadEvent) (ws : List (Option (Option Int)))
    (h : readsOk rs = true) :
    ((runLoop rs ws).2 ≠ Outcome.readError ∧ (runLoop rs ws).2 ≠ Outcome.panicked)
  ∧ mainExitStatus ((notmainCode (runLoop rs ws).2).getD none)
      = childExitFallback (runLoop rs ws).2 := by
  refine ⟨runLoop_no_error rs h ws, ?_⟩
  cases h2 : (runLoop rs ws).2 with
  | exited c => cases c <;> rfl
  | readError => rfl
  | panicked => rfl
  | pending => rfl

/-- Claim C9 witness: a run that prints one plain line, hits EOF, and then
observes the child exited with code 7 ends with outcome `exited (some 7)`
and consumer exit status 7. -/
theorem successful_run_exit_witness :
    ((runLoop [ReadEvent.line [0x68], ReadEvent.eof] [none, none, some (some 7)]).2
        ≠ Outcome.readError
      ∧ (runLoop [ReadEvent.line [0x68], ReadEvent.eof] [none, none, some (some 7)]).2
        ≠ Outcome.panicked)
  ∧ mainExitStatus
      ((notmainCode (runLoop [ReadEvent.line [0x68], ReadEvent.eof]
          [none, none, some (some 7)]).2).getD none)
      = childExitFallback (runLoop [ReadEvent.line [0x68], ReadEvent.eof]
          [none, none, some (some 7)]).2 :=
  successful_run_exit [ReadEvent.line [0x68], ReadEvent.eof]
    [none, none, some (some 7)] (by decide)
